import Mathlib

/-!
Verification of the MemoryAnalysis repository: a shallow embedding of
`lib/cuckoo/common/netlog.py` (the legacy Netlog decoder and the generic
BSON decoder with its trigger and call-chain engine) and of
`modules/processing/memoryanalysis.py` (the snapshot differencing engine,
facet resolver and escalation policy), together with theorems settling the
specification claims about them.

Modelling conventions:
* Python byte strings are `List Nat` (one entry per byte).
* Python dictionaries used as argument records are association lists
  `List (String × Value)` built with replace-or-append insertion, which
  reproduces dict key order and last-write-wins semantics.
* Machine integers are `Int`/`Nat`; the protocol reads unsigned 32-bit
  little-endian fields, modelled as `Nat` built from byte values.
* Fallible code (a Python exception that kills the decoding session, such as
  a KeyError on a missing argument) is modelled with `Option`/`Except`.
-/

/-- A decoded wire value: the BSON layer delivers integers and strings.
Non-integer values are represented by `vstr`; the converter code only
distinguishes int from non-int. -/
inductive Value where
  | vint (n : Int)
  | vstr (s : String)
deriving DecidableEq, Repr

/-- First-match association-list lookup, the reading side of the dict model. -/
def alookup {K V : Type} [DecidableEq K] (k : K) : List (K × V) → Option V
  | [] => none
  | (k', v) :: rest => if k' = k then some v else alookup k rest

/-- Whether a key is present, mirroring Python `has_key` / `in`. -/
def akey {K V : Type} [DecidableEq K] (k : K) (l : List (K × V)) : Bool :=
  (alookup k l).isSome

/-- Replace-or-append insertion: reproduces Python dict assignment
(`d[k] = v`): an existing key keeps its position and takes the new value, a
fresh key is appended. -/
def aset {K V : Type} [DecidableEq K] (k : K) (v : V) : List (K × V) → List (K × V)
  | [] => [(k, v)]
  | (k', v') :: rest => if k' = k then (k, v) :: rest else (k', v') :: aset k v rest

/-- Remove a key, mirroring Python dict `pop` (the removal part). -/
def aremove {K V : Type} [DecidableEq K] (k : K) : List (K × V) → List (K × V)
  | [] => []
  | (k', v') :: rest => if k' = k then rest else (k', v') :: aremove k rest

/-- Python `d.pop(k, dflt)`: the value (or the default) and the dict without
the key. -/
def apop {K V : Type} [DecidableEq K] (k : K) (dflt : V) (l : List (K × V)) :
    V × List (K × V) :=
  match alookup k l with
  | some v => (v, aremove k l)
  | none => (dflt, l)

/-- Lower-case hexadecimal digit character, as produced by Python `"%x"`. -/
def hexDigitCh (d : Nat) : Char :=
  if d < 10 then Char.ofNat (48 + d) else Char.ofNat (87 + d)

/-- Fuel-driven hex digit accumulation (most significant first). The fuel
argument only bounds the recursion; `n / 16` reaches 0 well before it runs
out. -/
def hexCore : Nat → Nat → List Char
  | 0, _ => []
  | fuel + 1, n => if n = 0 then [] else hexCore fuel (n / 16) ++ [hexDigitCh (n % 16)]

/-- Python `"%x" % n` for a nonnegative `n`. -/
def hexRepr (n : Nat) : List Char :=
  if n = 0 then ['0'] else hexCore (n + 1) n

/-- Python `"0x%08x" % n` for a nonnegative `n`: hex digits zero-padded on
the left to width 8, prefixed with `0x`. -/
def pyFormat08x (n : Nat) : String :=
  String.mk (('0' :: ['x']) ++ List.replicate (8 - (hexRepr n).length) '0' ++ hexRepr n)

/-- `default_converter` from netlog.py: negative integers (BSON stores all
integers signed, the true domain is unsigned 32-bit) get `2^32` added;
everything else is returned unchanged. -/
def default_converter : Value → Value
  | .vint n => if n < 0 then .vint (n + 0x100000000) else .vint n
  | .vstr s => .vstr s

/-- The `"p"` entry of `TYPECONVERTERS`: `"0x%08x" % default_converter(v)`.
Formatting a non-integer with `%x` raises in Python and kills the decoding
session, hence `Option`. The model covers the nonnegative post-fix-up range
(the protocol carries 32-bit quantities). -/
def typeconverter_p (v : Value) : Option Value :=
  match default_converter v with
  | .vint n => some (.vstr (pyFormat08x n.toNat))
  | .vstr _ => none

/-- A converter slot in a registered schema: pointer formatting or the
default signed fix-up. -/
inductive ConvTag where
  | ptr
  | dflt
deriving DecidableEq, Repr

/-- Apply a converter slot. -/
def applyConv : ConvTag → Value → Option Value
  | .ptr, v => typeconverter_p v
  | .dflt, v => some (default_converter v)

/-! ## Byte streams

The external Byte Source contract: `read(n)` blocks until exactly `n` bytes
are available; a short read means the stream ended, which every decoder
treats as a fatal end of session. -/

/-- Errors of the legacy decoder. `lengthOutOfRange` is the
`CuckooResultError` raised by `read_string`; `endOfStream` models a short
read. -/
inductive NetErr where
  | endOfStream
  | lengthOutOfRange
deriving DecidableEq, Repr

/-- `handler.read n`: the first `n` bytes and the rest, or a fatal error if
fewer than `n` remain. -/
def hread (n : Nat) (s : List Nat) : Except NetErr (List Nat × List Nat) :=
  if n ≤ s.length then .ok (s.take n, s.drop n) else .error .endOfStream

/-- Unsigned 32-bit little-endian decode of (the first four of) a byte list,
as `struct.unpack("I", ...)`. -/
def u32le (bs : List Nat) : Nat :=
  bs.getD 0 0 + 256 * bs.getD 1 0 + 65536 * bs.getD 2 0 + 16777216 * bs.getD 3 0

/-- The truncation marker `read_string` appends. -/
def truncMarkerS : List Nat := "... (truncated)".toList.map Char.toNat

/-- The truncation marker `read_buffer` appends (note the leading space in
the source). -/
def truncMarkerB : List Nat := " ... (truncated)".toList.map Char.toNat

namespace Netlog

/-- `NetlogParser.read_string`: an 8-byte header (`length`, `maxlength`,
both u32le), a range check `0 <= length <= 0x10000` (the lower bound is
vacuous for an unsigned field), then `length` bytes, with the truncation
marker appended when `maxlength > length`. Errors carry the stream as it
stands when the exception is raised. -/
def read_string (s : List Nat) : Except (NetErr × List Nat) (List Nat × List Nat) :=
  match hread 8 s with
  | .error e => .error (e, s)
  | .ok (hdr, s1) =>
    let length := u32le (hdr.take 4)
    let maxlength := u32le (hdr.drop 4)
    if length > 0x10000 then
      .error (.lengthOutOfRange, s1)
    else
      match hread length s1 with
      | .error e => .error (e, s1)
      | .ok (str, s2) =>
        .ok (if maxlength > length then str ++ truncMarkerS else str, s2)

/-- `NetlogParser.read_buffer`: same 8-byte header and truncation convention
as `read_string`, but the source performs no range check on `length`. -/
def read_buffer (s : List Nat) : Except (NetErr × List Nat) (List Nat × List Nat) :=
  match hread 8 s with
  | .error e => .error (e, s)
  | .ok (hdr, s1) =>
    let length := u32le (hdr.take 4)
    let maxlength := u32le (hdr.drop 4)
    match hread length s1 with
    | .error e => .error (e, s1)
    | .ok (buf, s2) =>
      .ok (if maxlength > length then buf ++ truncMarkerB else buf, s2)

end Netlog

/-- `MAX_MESSAGE_LENGTH` from netlog.py: 20 MiB. -/
def MAX_MESSAGE_LENGTH : Nat := 20 * 1024 * 1024

namespace Bson

/-- The framing step of `BsonParser.read_next_message`: read a 4-byte
little-endian total length `blen`; if it exceeds `MAX_MESSAGE_LENGTH` return
`False` (modelled `none`) without touching the payload, otherwise read the
remaining `blen - 4` bytes and hand back the whole message buffer. The
source computes `blen - 4` on Python integers; for `blen < 4` the external
read contract returns no bytes for a non-positive count, which coincides
with truncated `Nat` subtraction. -/
def read_frame (s : List Nat) :
    Except (NetErr × List Nat) (Option (List Nat) × List Nat) :=
  match hread 4 s with
  | .error e => .error (e, s)
  | .ok (data, s1) =>
    let blen := u32le data
    if blen > MAX_MESSAGE_LENGTH then
      .ok (none, s1)
    else
      match hread (blen - 4) s1 with
      | .error e => .error (e, s1)
      | .ok (rest, s2) => .ok (some (data ++ rest), s2)

end Bson

/-! ## memoryanalysis.py: facet resolver, differencing engine, escalation -/

namespace MemAnalysis

/-! The value type of one computed facet is irrelevant to the resolver; the
section variable stands for the external volatility computation
`getattr(self.vol_manager, dep)(**attrs)`. -/

section Resolver

variable {V : Type} (compute : String → V)

/-- `MemoryAnalysis.run_dependencies`: run each listed dependency only when
its key is absent from the results dict. Besides the augmented results the
model returns, in order, the list of dependencies whose computation was
actually invoked, so that memoization statements can talk about invocation
counts. -/
def run_dependencies :
    List (String × V) → List String → List (String × V) × List String
  | results, [] => (results, [])
  | results, dep :: deps =>
    if akey dep results then run_dependencies results deps
    else
      let r := run_dependencies (results ++ [(dep, compute dep)]) deps
      (r.1, dep :: r.2)

end Resolver

/-- A forensic record: a Python dict with named fields. Keys are unique in
any dict the source can build. -/
abbrev Rec := List (String × Value)

/-- A resolved snapshot, accessed as `snap[dep]["data"]`. -/
abbrev Snap := String → List Rec

/-- The keys of a record. -/
def rkeys (r : Rec) : List String := r.map Prod.fst

/-- Record equality as Python dict equality (`hashabledict` instances enter
a set, where membership compares dicts field-by-field, order
independently). -/
def requiv (r1 r2 : Rec) : Bool :=
  (rkeys r1 ++ rkeys r2).all fun k => alookup k r1 == alookup k r2

/-- Set membership of a record in a list, up to dict equality. -/
def memR (r : Rec) (l : List Rec) : Bool := l.any (requiv r)

/-- `list(set(...))`: drop duplicates (keeping first appearance; the Python
set order is unspecified, so theorems speak about membership only). -/
def dedupR (l : List Rec) : List Rec :=
  l.foldl (fun acc r => if memR r acc then acc else acc ++ [r]) []

/-- The union `hashable_united_old` / `hashable_united_new` builds: all
records of the listed dependencies of a snapshot (set union; membership is
up to `requiv`). -/
def united (s : Snap) (deps : List String) : List Rec :=
  deps.foldl (fun acc dep => acc ++ s dep) []

/-- `MemoryAnalysis.get_new_objects`: union the per-dependency record sets
of each snapshot and return the records of `new` that are not in `old`
(`list(set_new - set_old)`: each surviving record once). -/
def get_new_objects (old new : Snap) (deps : List String) : List Rec :=
  dedupR ((united new deps).filter fun r => !memR r (united old deps))

/-- The fixed exclusion test of `get_new_connections` (sandbox
infrastructure noise). A record missing one of the three fields would raise
in Python; theorems assume the connection fields are present. -/
def connExcluded (c : Rec) : Bool :=
  alookup "local_port" c == some (.vint 8000) ||
  alookup "remote_port" c == some (.vint 2042) ||
  alookup "remote_address" c == some (.vstr "293.268.122.1")

/-- `MemoryAnalysis.get_new_connections`: the raw new-object diff minus the
fixed exclusion list. -/
def get_new_connections (old new : Snap) (deps : List String) : List Rec :=
  (get_new_objects old new deps).filter fun c => !connExcluded c

/-- A loaded module as the DLL-list diff sees it: the full path it matches
on, plus the untouched remaining fields. -/
structure DllModule where
  dll_full_name : String
  fields : List (String × Value)
deriving DecidableEq, Repr

/-- A process entry of the `dlllist` facet. -/
structure DllProc where
  process_id : Int
  process_name : String
  loaded_modules : List DllModule
deriving DecidableEq, Repr

/-- A module returned by the DLL-list diff, annotated (the source mutates
the module dict) with the owning process id and name. -/
structure AnnModule where
  module : DllModule
  process_id : Int
  process_name : String
deriving DecidableEq, Repr

/-- `MemoryAnalysis.get_new_dlllist`: match processes across snapshots by
process id (first match), then report each module of the new process whose
full path does not appear in the matched old process, annotated with the
process id and name. A new process with no pid match in `old` is skipped. -/
def get_new_dlllist (old new : List DllProc) : List AnnModule :=
  new.foldl
    (fun acc proc =>
      match old.find? (fun p => p.process_id == proc.process_id) with
      | none => acc
      | some old_p =>
        acc ++ (proc.loaded_modules.filter fun m =>
          !(old_p.loaded_modules.any fun m2 => m2.dll_full_name == m.dll_full_name)).map
          fun m => AnnModule.mk m proc.process_id proc.process_name)
    []

/-- One entry of the `DiffResult`: `desc`, the two record lists, the `star`
mark, and the `disassembly` field one trigger branch adds. The record type
is a parameter: the escalation policy never inspects record contents. -/
structure DiffEntry (ρ : Type) where
  desc : String := ""
  new : List ρ := []
  deleted : List ρ := []
  star : String := "no"
  disassembly : Option String := none

/-- The `DiffResult`: facet name to entry (a Python dict, keys unique). -/
abbrev Diffs (ρ : Type) := List (String × DiffEntry ρ)

/-- Apply an update to the entry of one facet (a Python in-place mutation
of `d[k]`; dict keys are unique, other entries are untouched). -/
def dmapAt {ρ : Type} (k : String) (f : DiffEntry ρ → DiffEntry ρ) :
    Diffs ρ → Diffs ρ
  | [] => []
  | (k', e) :: rest =>
    if k' = k then (k', f e) :: rest else (k', e) :: dmapAt k f rest

/-- Set the `star` mark of one facet to `"yes"`. -/
def dstar {ρ : Type} (k : String) (d : Diffs ρ) : Diffs ρ :=
  dmapAt k (fun e => { e with star := "yes" }) d

/-- Update one facet entry in place; `none` models the `KeyError` a Python
index on an absent facet raises. -/
def dmodify {ρ : Type} (k : String) (f : DiffEntry ρ → DiffEntry ρ) (d : Diffs ρ) :
    Option (Diffs ρ) :=
  if akey k d then some (dmapAt k f d) else none

/-- The smart-escalation loop (memoryanalysisconsts.TRIGGER_PLUGINS lines
536-540): each facet of the trigger escalation list that is present in the
diffs gets `star := "yes"`; absent facets are skipped. -/
def markSmart {ρ : Type} (ps : List String) (d : Diffs ρ) : Diffs ρ :=
  ps.foldl (fun d p => if akey p d then dstar p d else d) d

/-- The externally computed inputs of the trigger-specific follow-ups
(volatility plugin invocations, regex extraction, disassembly): the records
each branch appends or installs. `vpRec` is `malfind(...)["data"][0]`;
`none` models the crash when that list is empty. -/
structure ExtData (ρ : Type) where
  patcherRecs : List ρ := []
  hookRecs : List ρ := []
  vpExec : Bool := true
  vpRec : Option ρ := none
  dlldumpRecs : List ρ := []
  threadRecs : List ρ := []
  disasm : Option String := none

/-- The trigger-specific follow-up branches of `run_memory_analysis`
(lines 542-619), with the external volatility results abstracted into
`ExtData`. `none` models a raised exception (e.g. indexing an absent
facet). -/
def triggerPost {ρ : Type} (trigger : String) (ext : ExtData ρ) (d : Diffs ρ) :
    Option (Diffs ρ) :=
  if trigger = "monitorCPU" then
    some (if akey "diff_heap_entropy" d then dstar "diff_heap_entropy" d else d)
  else if trigger = "ZwLoadDriver" then
    if ext.patcherRecs.isEmpty then some d
    else dmodify "diff_moddump" (fun e => { e with new := e.new ++ ext.patcherRecs }) d
  else if trigger = "SetWindowsHookExA" ∨ trigger = "SetWindowsHookExW" then
    if akey "diff_messagehooks" d then
      if ext.hookRecs.isEmpty then some d
      else dmodify "injected_dll"
        (fun e => { e with new := e.new ++ ext.hookRecs, star := "yes" }) d
    else some d
  else if trigger = "VirtualProtectEx" then
    match ext.vpRec with
    | none => none
    | some r =>
      ((if ext.vpExec then
          dmodify "diff_malfind" (fun e => { e with new := e.new ++ [r] }) d
        else
          dmodify "diff_malfind" (fun e => { e with deleted := e.deleted ++ [r] }) d).bind
        (dmodify "diff_malfind" fun e => { e with star := "yes" }))
  else if trigger = "WriteProcessMemory -> CreateRemoteThread -> LoadLibrary" then
    some (aset "injected_dll"
      { desc := "Finds the injected dll and dumps it", new := ext.dlldumpRecs,
        deleted := [], star := "yes" } d)
  else if trigger = "NtSetContextThread -> NtResumeThread" then
    some (aset "injected_thread"
      { desc := "Shows the injected thread", new := ext.threadRecs,
        deleted := [], star := "yes" } d)
  else if trigger = "WriteProcessMemory -> CreateRemoteThread" then
    some (aset "injected_thread"
      { desc := "Shows the injected thread", new := ext.threadRecs,
        deleted := [], star := "yes", disassembly := ext.disasm } d)
  else some d

/-- The escalation phase of `run_memory_analysis` for an infected dump
(lines 522-619): install the fresh `injected_thread` / `injected_dll`
entries, then, when smart analysis is enabled for the firing trigger, mark
the facets of the trigger escalation list and run the trigger-specific
follow-ups. Modelled from the spec: `TRIGGER_PLUGINS` lives in
`memoryanalysisconsts`, which is not under src; it is taken as an explicit
trigger-to-facet-list table `tp`. -/
def injectBase {ρ : Type} (d0 : Diffs ρ) : Diffs ρ :=
  aset "injected_dll" { desc := "Finds the injected dll and dumps it" }
    (aset "injected_thread" { desc := "Shows the injected thread" } d0)

def escalate {ρ : Type} (tp : List (String × List String)) (trigger : String)
    (smart : Bool) (ext : ExtData ρ) (d0 : Diffs ρ) : Option (Diffs ρ) :=
  let d2 := injectBase d0
  if smart then
    let d3 := match alookup trigger tp with
      | some ps => markSmart ps d2
      | none => d2
    triggerPost trigger ext d3
  else some d2

end MemAnalysis

/-! ## netlog.py: the BSON trigger engine and call handling -/

namespace Bson

/-- An argument dict of one decoded call. -/
abbrev Args := List (String × Value)

/-- One trigger rule from `conf/triggers.conf` (external configuration,
loaded not parsed by the core). -/
structure TrigOptions where
  enabled : Bool
  dump_memory : Bool
  break_on_volshell : Bool
  breakpoint : Bool
deriving DecidableEq, Repr

/-- The configuration and handler attributes `execute_trigger_parameters`
consults: the global `triggered_dumps` switch, the per-API rule table, the
`server` capability, and the two runtime breakpoint lists. -/
structure TrigEnv where
  triggered_dumps : Bool
  conf : String → Option TrigOptions
  server : Bool
  volshell_bps : List String
  bps : List String

/-- The observable actions a fired trigger performs. -/
inductive Action where
  | dumpMemory (apiname : String) (argdict : Args)
  | volshell
  | breakpoint
deriving DecidableEq, Repr

/-- Modelled from the spec: `handler.reduce_times` lives in the external
handler; per the spec, `remaining_fire_count` is decremented on each fire.
The counters are a per-API-name integer map. -/
def reduce_times (times : String → Int) (apiname : String) : String → Int :=
  fun a => if a = apiname then times a - 1 else times a

/-- `BsonParser.execute_trigger_parameters`: fire only when the global
switch is on, the rule exists and is enabled, the handler has the `server`
capability, and the remaining fire count is positive; then decrement the
count and perform the configured actions. Otherwise do nothing. -/
def execute_trigger_parameters (env : TrigEnv) (times : String → Int)
    (apiname : String) (argdict : Args) : List Action × (String → Int) :=
  match env.conf apiname with
  | some o =>
    if env.triggered_dumps ∧ o.enabled ∧ env.server ∧ times apiname > 0 then
      ((if o.dump_memory then [Action.dumpMemory apiname argdict] else []) ++
       (if o.break_on_volshell ∨ apiname ∈ env.volshell_bps then [Action.volshell] else []) ++
       (if o.breakpoint ∨ apiname ∈ env.bps then [Action.breakpoint] else []),
       reduce_times times apiname)
    else ([], times)
  | none => ([], times)

/-- One argument descriptor of an `info` message: a bare name or a
`(name, typeinfo)` pair. -/
inductive ArgInfo where
  | plain (name : String)
  | typed (name : String) (t : String)
deriving DecidableEq, Repr

/-- A registered schema: the five components stored in `infomap[index]`. -/
structure Schema where
  name : String
  arginfo : List ArgInfo
  argnames : List String
  convs : List ConvTag
  category : String
deriving Repr

/-- `check_names_for_typeinfo`: names from the descriptors, and a converter
per argument (`"p"` selects pointer formatting, unknown specifiers and bare
names fall back to the default converter). -/
def check_names_for_typeinfo (arginfo : List ArgInfo) : List String × List ConvTag :=
  (arginfo.map fun i => match i with
     | .plain s => s
     | .typed s _ => s,
   arginfo.map fun i => match i with
     | .plain _ => ConvTag.dflt
     | .typed _ t => if t = "p" then ConvTag.ptr else ConvTag.dflt)

/-- An `info` message as decoded, with the source defaults. -/
structure InfoMsg where
  index : Int
  name : String := "NONAME"
  arginfo : List ArgInfo := []
  category : Option String := none

/-- The `info` branch of `read_next_message`: register the schema under the
index. `legacyCategory` is the LOGTBL name lookup (logtbl.py is not under
src; per the spec, the category is derived from the legacy table when the
message carries none, with default `"unknown"`). An absent or empty
category field is falsy in the source. -/
def handle_info (legacyCategory : String → Option String)
    (infomap : List (Int × Schema)) (msg : InfoMsg) : List (Int × Schema) :=
  let category0 := (msg.category).getD ""
  let category := if category0 = "" then (legacyCategory msg.name).getD "unknown" else category0
  let nc := check_names_for_typeinfo msg.arginfo
  aset msg.index (Schema.mk msg.name msg.arginfo nc.1 nc.2 category) infomap

/-- Scan the Call History for the most recent prior call of this name:
the source iterates `handler.get_apis()` front to back and takes the first
entry whose name matches. -/
def findApi (name : String) (apis : List (String × Args)) : Option Args :=
  match apis.find? (fun a => a.1 = name) with
  | some a => some a.2
  | none => none

/-- Modelled from the spec: `handler.remove_from_apis` lives in the
external handler; per the spec, a history entry is explicitly removed once
consumed by a completed chain. Python `list.remove` drops the first equal
element. -/
def removeFirst (apis : List (String × Args)) (x : String × Args) :
    List (String × Args) :=
  match apis with
  | [] => []
  | a :: rest => if a = x then rest else a :: removeFirst rest x

/-- The inner scan of the `LdrLoadDll` branch: walk the history for a
`CreateRemoteThread` whose `ProcessHandle` equals that of the already-found
`WriteProcessMemory` entry and whose `ProcessId` equals the current call
`ProcessId`; on the first such entry fire the three-step chain trigger and
remove both constituent entries. A missing compared field raises in Python
(`none`). -/
def ldrScan (all : List (String × Args)) (wpm : Args) (argdict : Args) :
    List (String × Args) → Option (List (String × Args) × List (String × Args))
  | [] => some ([], all)
  | (name, args) :: rest =>
    if name = "CreateRemoteThread" then
      match alookup "ProcessHandle" args, alookup "ProcessHandle" wpm with
      | some h1, some h2 =>
        if h1 = h2 then
          match alookup "ProcessId" argdict, alookup "ProcessId" args with
          | some p1, some p2 =>
            if p1 = p2 then
              some ([("WriteProcessMemory -> CreateRemoteThread -> LoadLibrary", argdict)],
                removeFirst (removeFirst all ("WriteProcessMemory", wpm)) (name, args))
            else ldrScan all wpm argdict rest
          | _, _ => none
        else ldrScan all wpm argdict rest
      | _, _ => none
    else ldrScan all wpm argdict rest

/-- The `LdrLoadDll` branch (netlog.py lines 499-524): find the first
`WriteProcessMemory` in the history; if present, run `ldrScan`. Returns the
fired trigger invocations and the updated history. -/
def ldrStep (apis : List (String × Args)) (argdict : Args) :
    Option (List (String × Args) × List (String × Args)) :=
  match findApi "WriteProcessMemory" apis with
  | none => some ([], apis)
  | some wpm => ldrScan apis wpm argdict apis

/-- The `NtResumeThread` branch: fire the two-step context chain when the
most recent `NtSetContextThread` used the same thread handle. -/
def resumeStep (apis : List (String × Args)) (argdict : Args) :
    Option (List (String × Args)) :=
  match findApi "NtSetContextThread" apis with
  | none => some []
  | some sa =>
    match alookup "ThreadHandle" sa, alookup "ThreadHandle" argdict with
    | some a, some b =>
      some (if a = b then [("NtSetContextThread -> NtResumeThread", argdict)] else [])
    | _, _ => none

/-- The `CreateRemoteThread` branch: fire the two-step write chain when any
prior `WriteProcessMemory` exists (the source checks no handle here). -/
def crtStep (apis : List (String × Args)) (argdict : Args) : List (String × Args) :=
  if (findApi "WriteProcessMemory" apis).isSome then
    [("WriteProcessMemory -> CreateRemoteThread", argdict)]
  else []

/-- Python `str.encode("hex")`: two lowercase hex digits per byte. -/
def hexEncode (s : String) : String :=
  String.mk (s.toList.foldr
    (fun c acc => hexDigitCh (c.toNat / 16 % 16) :: hexDigitCh (c.toNat % 16) :: acc) [])

/-- Python `needle in hay` on strings: contiguous substring containment. -/
def strIn (needle hay : String) : Bool :=
  decide (needle.toList <:+: hay.toList)

/-- The per-API dispatch of the regular-call path (the `elif` chain on
`apiname`, lines 436-524): which trigger invocations are requested, the
possibly rewritten argument dict (`WriteProcessMemory` hex-encodes
`Buffer`), and the possibly rewritten history (`LdrLoadDll` removes
consumed chain entries). `none` models a raised lookup error. -/
def dispatch (server : Bool) (apiname : String) (argdict : Args)
    (apis : List (String × Args)) :
    Option (List (String × Args) × Args × List (String × Args)) :=
  if apiname = "VirtualProtectEx" then
    if server then
      match alookup "CurrentProcessId" argdict, alookup "ProcessId" argdict with
      | some a, some b => some (if a ≠ b then [(apiname, argdict)] else [], argdict, apis)
      | _, _ => none
    else some ([], argdict, apis)
  else if apiname = "monitorCPU" ∨ apiname = "NtCreateProcess" ∨
      apiname = "monitorUnpacking" ∨ apiname = "UnhookWindowsHookEx" ∨
      apiname = "StartServiceA" ∨ apiname = "StartServiceW" ∨
      apiname = "SetWinEventHook" ∨ apiname = "socket" ∨
      apiname = "SetWindowsHookExW" ∨ apiname = "SetWindowsHookExA" ∨
      apiname = "ZwLoadDriver" ∨ apiname = "NtCreateMutant" then
    some ([(apiname, argdict)], argdict, apis)
  else if apiname = "NtCreateFile" then
    match alookup "FileName" argdict with
    | some (.vstr s) =>
      let filename := s.toLower
      some (if server ∧ (strIn ".sys" filename ∨ ¬ strIn ":\\" filename) ∧
          ¬ strIn "system32" filename then [(apiname, argdict)] else [], argdict, apis)
    | _ => none
  else if apiname = "WriteProcessMemory" then
    match alookup "Buffer" argdict with
    | some (.vstr b) =>
      let argdict1 := aset "Buffer" (Value.vstr (hexEncode b)) argdict
      match alookup "ProcessId" argdict1, alookup "CurrProcessId" argdict1 with
      | some p, some c => some (if p ≠ c then [(apiname, argdict1)] else [], argdict1, apis)
      | _, _ => none
    | _ => none
  else if apiname = "NtResumeThread" then
    if server then (resumeStep apis argdict).map (fun f => (f, argdict, apis))
    else some ([], argdict, apis)
  else if apiname = "CreateRemoteThread" then
    some (if server then crtStep apis argdict else [], argdict, apis)
  else if apiname = "LdrLoadDll" then
    if server then (ldrStep apis argdict).map (fun r => (r.1, argdict, r.2))
    else some ([], argdict, apis)
  else some ([], argdict, apis)

/-- The call context `[index, is_success, return_value, tid, time]`; the
middle two slots start as `1` and `0` and are patched from the argument
payload before `log_call`. -/
structure Ctx where
  index : Int
  is_success : Value := .vint 1
  retval : Value := .vint 0
  tid : Int
  time : Int
deriving DecidableEq, Repr

/-- The FILETIME-to-Unix conversion of the `__process__` payload, computed
exactly (the source uses a float division; no claim depends on rounding). -/
def vmtimeunix (timelow timehigh : Int) : ℚ :=
  ((timelow : ℚ) + (timehigh : ℚ) * 4294967296) / 10000000 - 11644473600

/-- Modelled from the spec: `utils.get_filename_from_path` is not under
src; it extracts the file name component of a module path. -/
def get_filename_from_path (p : String) : String :=
  ((p.toList.foldl (fun acc c => if c = '\\' ∨ c = '/' then [] else acc ++ [c]) []).asString)

/-- The events emitted to the handler collaborator. -/
inductive Event where
  | log_call (ctx : Ctx) (apiname : String) (category : String)
      (arguments : List (String × Value))
  | log_process (ctx : Ctx) (time : ℚ) (pid : Value) (ppid : Value)
      (modulepath : String) (procname : String)
  | log_thread (ctx : Ctx) (pid : Value)

/-- A regular call message as decoded, with the source defaults. -/
structure CallMsg where
  index : Int
  tid : Int := 0
  time : Int := 0
  args : List Value := []
  aux : List (String × Value) := []

/-- Build the argument dict `dict((argnames[i], converters[i](args[i])))`
in index order; a converter failure raises. -/
def buildArgdictGo (acc : Args) :
    List String → List ConvTag → List Value → Option Args
  | [], _, _ => some acc
  | _, [], _ => some acc
  | _, _, [] => some acc
  | n :: ns, c :: cs, v :: vs =>
    match applyConv c v with
    | some v' => buildArgdictGo (aset n v' acc) ns cs vs
    | none => none

/-- See `buildArgdictGo`. -/
def buildArgdict (argnames : List String) (convs : List ConvTag)
    (args : List Value) : Option Args :=
  buildArgdictGo [] argnames convs args

/-- The full outcome of handling one regular call message. -/
structure StepOut where
  infomap : List (Int × Schema)
  apis : List (String × Args)
  events : List Event
  fires : List (String × Args)
  result : Bool

/-- The regular-call branch of `BsonParser.read_next_message` (lines
393-533): an unknown index or an argument count mismatch drops the message
(warning, `return True`); otherwise the arguments are converted, the call
is appended to the Call History, the per-API dispatch runs (`__process__`
and `__thread__` short-circuit into process/thread events), the context is
patched from `is_success`/`retval`, aux fields are merged, and `log_call`
is emitted. `none` models a raised exception (session death). Note the
source mutates the argument dict it already stored in the history; the
chain logic only reads fields that are never mutated, so the model stores
values. -/
def handle_call (server : Bool) (infomap : List (Int × Schema))
    (apis : List (String × Args)) (msg : CallMsg) : Option StepOut :=
  let ctx : Ctx := ⟨msg.index, .vint 1, .vint 0, msg.tid, msg.time⟩
  match alookup msg.index infomap with
  | none => some ⟨infomap, apis, [], [], true⟩
  | some sch =>
    if msg.args.length ≠ sch.argnames.length then
      some ⟨infomap, apis, [], [], true⟩
    else
      match buildArgdict sch.argnames sch.convs msg.args with
      | none => none
      | some argdict0 =>
        let apis1 := apis ++ [(sch.name, argdict0)]
        if sch.name = "__process__" then
          match alookup "TimeLow" argdict0, alookup "TimeHigh" argdict0 with
          | some (.vint tl), some (.vint th) =>
            match alookup "ProcessIdentifier" argdict0,
                alookup "ParentProcessIdentifier" argdict0,
                alookup "ModulePath" argdict0 with
            | some pid, some ppid, some (.vstr mp) =>
              some ⟨infomap, apis1,
                [Event.log_process ctx (vmtimeunix tl th) pid ppid mp
                  (get_filename_from_path mp)],
                [("__process__", argdict0)], true⟩
            | _, _, _ => none
          | _, _ => none
        else if sch.name = "__thread__" then
          match alookup "ProcessIdentifier" argdict0 with
          | some pid => some ⟨infomap, apis1, [Event.log_thread ctx pid], [], true⟩
          | none => none
        else
          match dispatch server sch.name argdict0 apis1 with
          | none => none
          | some (fires, argdict1, apis2) =>
            let p1 := apop "is_success" (Value.vint 1) argdict1
            let p2 := apop "retval" (Value.vint 0) p1.2
            let ctx1 := { ctx with is_success := p1.1, retval := p2.1 }
            some ⟨infomap, apis2,
              [Event.log_call ctx1 sch.name sch.category (p2.2 ++ msg.aux)],
              fires, true⟩

/-- Run the trigger engine over the fired invocation requests in order,
threading the fire counters. -/
def runFires (env : TrigEnv) : (String → Int) → List (String × Args) →
    List Action × (String → Int)
  | times, [] => ([], times)
  | times, (n, d) :: rest =>
    let r := execute_trigger_parameters env times n d
    let r2 := runFires env r.2 rest
    (r.1 ++ r2.1, r2.2)

end Bson

/-! ## Helper lemmas: hex rendering -/

/-- Decode a lower-case hex digit character back to its value. -/
def hexDigitVal (c : Char) : Nat :=
  if c.toNat ≤ 57 then c.toNat - 48 else c.toNat - 87

/-- Decode a big-endian hex digit string. -/
def hexValue (ds : List Char) : Nat :=
  ds.foldl (fun acc c => acc * 16 + hexDigitVal c) 0

theorem hexDigitVal_hexDigitCh (d : Nat) (hd : d < 16) :
    hexDigitVal (hexDigitCh d) = d := by
  interval_cases d <;> rfl

theorem hexValue_append_singleton (l : List Char) (c : Char) :
    hexValue (l ++ [c]) = hexValue l * 16 + hexDigitVal c := by
  simp [hexValue, List.foldl_append]

theorem hexCore_val : ∀ fuel n, n ≤ fuel → hexValue (hexCore fuel n) = n := by
  intro fuel
  induction fuel with
  | zero =>
    intro n hn
    have : n = 0 := Nat.le_zero.mp hn
    simp [this, hexCore, hexValue]
  | succ fuel ih =>
    intro n hn
    by_cases h0 : n = 0
    · simp [h0, hexCore, hexValue]
    · have hdiv : n / 16 ≤ fuel := by
        have : n / 16 < n := Nat.div_lt_self (Nat.pos_of_ne_zero h0) (by norm_num)
        omega
      rw [hexCore, if_neg h0, hexValue_append_singleton, ih _ hdiv,
        hexDigitVal_hexDigitCh _ (Nat.mod_lt _ (by norm_num))]
      omega

theorem hexCore_len : ∀ fuel n k, n < 16 ^ k → (hexCore fuel n).length ≤ k := by
  intro fuel
  induction fuel with
  | zero => intro n k _; simp [hexCore]
  | succ fuel ih =>
    intro n k hk
    by_cases h0 : n = 0
    · simp [h0, hexCore]
    · have hkpos : 0 < k := by
        by_contra hc
        have : k = 0 := by omega
        subst this
        simp at hk
        omega
      have hdiv : n / 16 < 16 ^ (k - 1) := by
        apply Nat.div_lt_of_lt_mul
        calc n < 16 ^ k := hk
        _ = 16 * 16 ^ (k - 1) := by
          rw [← pow_succ']
          congr 1
          omega
      rw [hexCore, if_neg h0]
      have := ih (n / 16) (k - 1) hdiv
      simp only [List.length_append, List.length_singleton]
      omega

theorem hexValue_hexRepr (n : Nat) : hexValue (hexRepr n) = n := by
  by_cases h0 : n = 0
  · simp [h0, hexRepr, hexValue, hexDigitVal]
  · rw [hexRepr, if_neg h0]
    exact hexCore_val _ _ (Nat.le_succ n)

theorem hexRepr_len (n : Nat) (h : n < 2 ^ 32) : (hexRepr n).length ≤ 8 := by
  by_cases h0 : n = 0
  · simp [h0, hexRepr]
  · rw [hexRepr, if_neg h0]
    exact hexCore_len _ _ 8 (by norm_num at h ⊢; omega)

theorem hexValue_pad (p : Nat) (ds : List Char) :
    hexValue (List.replicate p '0' ++ ds) = hexValue ds := by
  have hz : ∀ q, List.foldl (fun acc c => acc * 16 + hexDigitVal c) 0
      (List.replicate q '0') = 0 := by
    intro q
    induction q with
    | zero => rfl
    | succ q ih => simpa [List.replicate_succ, hexDigitVal] using ih
  simp [hexValue, List.foldl_append, hz]

/-- C9: the default argument converter adds `2^32` to every negative
integer and leaves nonnegative integers and non-integers unchanged, so
`converter(-1) = 0xFFFFFFFF` and `converter(5) = 5`; the pointer converter
renders the fixed-up value as `0x` followed by exactly eight zero-padded
hex digits that decode back to the fixed-up value. -/
theorem c9_converter_spec :
    (∀ n : Int, n < 0 → default_converter (.vint n) = .vint (n + 2 ^ 32)) ∧
    (∀ n : Int, 0 ≤ n → default_converter (.vint n) = .vint n) ∧
    (∀ s : String, default_converter (.vstr s) = .vstr s) ∧
    default_converter (.vint (-1)) = .vint 0xFFFFFFFF ∧
    default_converter (.vint 5) = .vint 5 ∧
    (∀ n : Int, -(2 ^ 32) ≤ n → n < 2 ^ 32 →
      ∃ ds : List Char,
        typeconverter_p (.vint n) = some (.vstr (String.mk ('0' :: 'x' :: ds))) ∧
        ds.length = 8 ∧
        hexValue ds = (if n < 0 then n + 2 ^ 32 else n).toNat) := by
  refine ⟨?_, ?_, ?_, by decide, by decide, ?_⟩
  · intro n hn
    simp [default_converter, if_pos hn]
  · intro n hn
    simp [default_converter, not_lt.mpr hn]
  · intro s
    rfl
  · intro n hlo hhi
    set m : Int := if n < 0 then n + 2 ^ 32 else n with hm
    have hm0 : 0 ≤ m := by
      rw [hm]
      split <;> omega
    have hm32 : m.toNat < 2 ^ 32 := by
      rw [hm]
      split <;> omega
    have hconv : default_converter (.vint n) = .vint m := by
      rw [hm]
      simp only [default_converter]
      split <;> norm_num
    refine ⟨List.replicate (8 - (hexRepr m.toNat).length) '0' ++ hexRepr m.toNat, ?_, ?_, ?_⟩
    · simp only [typeconverter_p, hconv, pyFormat08x]
      rfl
    · have := hexRepr_len m.toNat hm32
      simp only [List.length_append, List.length_replicate]
      omega
    · rw [hexValue_pad, hexValue_hexRepr]

/-- Witness for C9 at the concrete inputs named by the spec. -/
theorem c9_converter_spec_witness :
    default_converter (.vint (-1)) = .vint (-1 + 2 ^ 32) ∧
    default_converter (.vint 5) = .vint 5 ∧
    (∃ ds : List Char,
      typeconverter_p (.vint (-1)) = some (.vstr (String.mk ('0' :: 'x' :: ds))) ∧
      ds.length = 8 ∧ hexValue ds = 4294967295) := by
  refine ⟨c9_converter_spec.1 (-1) (by norm_num), c9_converter_spec.2.1 5 (by norm_num), ?_⟩
  have h := c9_converter_spec.2.2.2.2.2 (-1) (by norm_num) (by norm_num)
  simpa using h

/-! ## Claims C2 and C5: size guards of the two decoders -/

namespace Netlog

theorem read_string_big (s : List Nat) (h8 : 8 ≤ s.length)
    (hbig : 0x10000 < u32le (s.take 4)) :
    read_string s = .error (.lengthOutOfRange, s.drop 8) := by
  have h1 : hread 8 s = .ok (s.take 8, s.drop 8) := by rw [hread, if_pos h8]
  have ht : (s.take 8).take 4 = s.take 4 := by
    rw [List.take_take]
    norm_num
  simp only [read_string, h1, ht, gt_iff_lt, if_pos hbig]

theorem read_buffer_spec (s : List Nat) (h8 : 8 ≤ s.length)
    (hle : u32le (s.take 4) ≤ (s.drop 8).length) :
    read_buffer s = .ok
      (if u32le (s.take 4) < u32le ((s.take 8).drop 4) then
          (s.drop 8).take (u32le (s.take 4)) ++ truncMarkerB
        else (s.drop 8).take (u32le (s.take 4)),
       (s.drop 8).drop (u32le (s.take 4))) := by
  have h1 : hread 8 s = .ok (s.take 8, s.drop 8) := by rw [hread, if_pos h8]
  have ht : (s.take 8).take 4 = s.take 4 := by
    rw [List.take_take]
    norm_num
  have h2 : hread (u32le (s.take 4)) (s.drop 8) =
      .ok ((s.drop 8).take (u32le (s.take 4)), (s.drop 8).drop (u32le (s.take 4))) := by
    rw [hread, if_pos hle]
  simp only [read_buffer, h1, ht, h2, gt_iff_lt]

end Netlog

/-- C2 counterexample: the claim says the `0 <= length <= 0x10000` guard
holds for both `read_string` and `read_buffer`; but `read_buffer` performs
no range check: with a declared length of 65537 (> 0x10000) it reads the
65537 payload bytes and returns them, raising no `LengthOutOfRange`. -/
theorem c2_buffer_counterexample :
    0x10000 < u32le [1, 0, 1, 0] ∧
    Netlog.read_buffer ([1, 0, 1, 0, 0, 0, 0, 0] ++ List.replicate 65537 7) =
      .ok (List.replicate 65537 7, []) := by
  refine ⟨by norm_num [u32le], ?_⟩
  have hrep : (List.replicate 65537 (7 : Nat)).length = 65537 := List.length_replicate _ _
  have h8 : 8 ≤ (([1, 0, 1, 0, 0, 0, 0, 0] : List Nat) ++ List.replicate 65537 7).length := by
    rw [List.length_append, hrep]
    norm_num
  have htake8 : (([1, 0, 1, 0, 0, 0, 0, 0] : List Nat) ++ List.replicate 65537 7).take 8 =
      [1, 0, 1, 0, 0, 0, 0, 0] := List.take_left' rfl
  have hdrop8 : (([1, 0, 1, 0, 0, 0, 0, 0] : List Nat) ++ List.replicate 65537 7).drop 8 =
      List.replicate 65537 7 := List.drop_left' rfl
  have htake4 : (([1, 0, 1, 0, 0, 0, 0, 0] : List Nat) ++ List.replicate 65537 7).take 4 =
      [1, 0, 1, 0] := by
    rw [List.take_append_of_le_length (by norm_num)]
    rfl
  have hu : u32le [1, 0, 1, 0] = 65537 := by norm_num [u32le]
  have hle : u32le ((([1, 0, 1, 0, 0, 0, 0, 0] : List Nat) ++ List.replicate 65537 7).take 4) ≤
      ((([1, 0, 1, 0, 0, 0, 0, 0] : List Nat) ++ List.replicate 65537 7).drop 8).length := by
    rw [htake4, hu, hdrop8, hrep]
  have h := Netlog.read_buffer_spec _ h8 hle
  rw [h, htake4, hdrop8, htake8, hu, List.take_replicate, List.drop_replicate,
    Nat.min_self, Nat.sub_self, List.replicate_zero,
    if_neg (by norm_num [u32le])]

/-- C2 (amended): the range guard is implemented by `read_string` only: a
declared length above 0x10000 raises `LengthOutOfRange`
(`CuckooResultError`) there, consuming exactly the 8-byte header and no
payload bytes; `read_buffer` performs no range check and reads the declared
number of payload bytes whatever the declared length is. -/
theorem c2_length_guard :
    (∀ s : List Nat, 8 ≤ s.length → 0x10000 < u32le (s.take 4) →
      Netlog.read_string s = .error (.lengthOutOfRange, s.drop 8)) ∧
    (∀ s : List Nat, 8 ≤ s.length → u32le (s.take 4) ≤ (s.drop 8).length →
      Netlog.read_buffer s = .ok
        (if u32le (s.take 4) < u32le ((s.take 8).drop 4) then
            (s.drop 8).take (u32le (s.take 4)) ++ truncMarkerB
          else (s.drop 8).take (u32le (s.take 4)),
         (s.drop 8).drop (u32le (s.take 4)))) :=
  ⟨fun s h8 hbig => Netlog.read_string_big s h8 hbig,
   fun s h8 hle => Netlog.read_buffer_spec s h8 hle⟩

/-- Witness for C2 at concrete streams: a string header declaring length
65537 aborts with the header consumed; a buffer header declaring length 2
reads the two payload bytes. -/
theorem c2_length_guard_witness :
    Netlog.read_string [1, 0, 1, 0, 0, 0, 0, 0] = .error (.lengthOutOfRange, []) ∧
    Netlog.read_buffer [2, 0, 0, 0, 0, 0, 0, 0, 65, 66] = .ok ([65, 66], []) := by
  have h1 := c2_length_guard.1 [1, 0, 1, 0, 0, 0, 0, 0] (by norm_num) (by norm_num [u32le])
  have h2 := c2_length_guard.2 [2, 0, 0, 0, 0, 0, 0, 0, 65, 66] (by norm_num)
    (by norm_num [u32le])
  refine ⟨by simpa using h1, ?_⟩
  rw [h2]
  rfl

/-- C5: the BSON framing step returns `False` (session teardown) as soon as
the declared 4-byte little-endian length exceeds the 20 MiB ceiling,
consuming only those 4 bytes and no payload; at or below the ceiling it
reads exactly `declared_length - 4` payload bytes. -/
theorem c5_message_length_ceiling (s : List Nat) (h4 : 4 ≤ s.length) :
    (MAX_MESSAGE_LENGTH < u32le (s.take 4) →
      Bson.read_frame s = .ok (none, s.drop 4)) ∧
    (u32le (s.take 4) ≤ MAX_MESSAGE_LENGTH →
      u32le (s.take 4) - 4 ≤ (s.drop 4).length →
      Bson.read_frame s = .ok
        (some (s.take 4 ++ (s.drop 4).take (u32le (s.take 4) - 4)),
         (s.drop 4).drop (u32le (s.take 4) - 4))) := by
  have h1 : hread 4 s = .ok (s.take 4, s.drop 4) := by rw [hread, if_pos h4]
  constructor
  · intro hbig
    simp only [Bson.read_frame, h1, gt_iff_lt, if_pos hbig]
  · intro hsmall hpay
    have h2 : hread (u32le (s.take 4) - 4) (s.drop 4) =
        .ok ((s.drop 4).take (u32le (s.take 4) - 4),
          (s.drop 4).drop (u32le (s.take 4) - 4)) := by
      rw [hread, if_pos hpay]
    simp only [Bson.read_frame, h1, gt_iff_lt, if_neg (not_lt.mpr hsmall), h2]

/-- Witness for C5: a declared length of 0x02000000 (32 MiB) tears the
session down after the 4 header bytes; a declared length of 8 reads the
4-byte payload. -/
theorem c5_message_length_ceiling_witness :
    Bson.read_frame [0, 0, 0, 2] = .ok (none, []) ∧
    Bson.read_frame [8, 0, 0, 0, 9, 9, 9, 9] = .ok (some [8, 0, 0, 0, 9, 9, 9, 9], []) := by
  have h1 := (c5_message_length_ceiling [0, 0, 0, 2] (by norm_num)).1
    (by norm_num [u32le, MAX_MESSAGE_LENGTH])
  have h2 := (c5_message_length_ceiling [8, 0, 0, 0, 9, 9, 9, 9] (by norm_num)).2
    (by norm_num [u32le, MAX_MESSAGE_LENGTH]) (by norm_num [u32le])
  refine ⟨by simpa using h1, ?_⟩
  rw [h2]
  rfl

/-! ## Claim C4: facet resolver memoization -/

theorem alookup_append_left {K V : Type} [DecidableEq K] (k : K)
    (l1 l2 : List (K × V)) (h : (alookup k l1).isSome) :
    alookup k (l1 ++ l2) = alookup k l1 := by
  induction l1 with
  | nil => simp [alookup] at h
  | cons a rest ih =>
    by_cases hk : a.1 = k
    · simp [alookup, hk]
    · simp only [alookup, hk, if_false, List.cons_append] at h ⊢
      exact ih h

theorem alookup_append_right {K V : Type} [DecidableEq K] (k : K)
    (l1 l2 : List (K × V)) (h : alookup k l1 = none) :
    alookup k (l1 ++ l2) = alookup k l2 := by
  induction l1 with
  | nil => rfl
  | cons a rest ih =>
    by_cases hk : a.1 = k
    · simp [alookup, hk] at h
    · simp only [alookup, hk, if_false, List.cons_append] at h ⊢
      exact ih h

theorem akey_append_left {K V : Type} [DecidableEq K] (k : K)
    (l1 l2 : List (K × V)) (h : akey k l1) : akey k (l1 ++ l2) := by
  simp only [akey] at h ⊢
  rw [alookup_append_left k l1 l2 h]
  exact h

theorem akey_append_new {K V : Type} [DecidableEq K] (k : K)
    (l1 : List (K × V)) (v : V) (h : ¬ akey k l1) : akey k (l1 ++ [(k, v)]) := by
  have h' : alookup k l1 = none := by
    cases hcase : alookup k l1 with
    | none => rfl
    | some v' =>
      exact absurd (by simp [akey, hcase]) h
  simp only [akey]
  rw [alookup_append_right k l1 [(k, v)] h']
  simp [alookup]

namespace MemAnalysis

section ResolverLemmas

variable {V : Type} (compute : String → V)

theorem run_dependencies_lookup_preserved (deps : List String)
    (results : List (String × V)) (k : String) (h : akey k results) :
    alookup k (run_dependencies compute results deps).1 = alookup k results := by
  induction deps generalizing results with
  | nil => rfl
  | cons dep deps ih =>
    simp only [run_dependencies]
    by_cases hd : akey dep results
    · rw [if_pos hd]
      exact ih results h
    · rw [if_neg hd]
      simp only
      rw [ih _ (akey_append_left k results [(dep, compute dep)] h)]
      exact alookup_append_left k results [(dep, compute dep)] h

theorem run_dependencies_akey_preserved (deps : List String)
    (results : List (String × V)) (k : String) (h : akey k results) :
    akey k (run_dependencies compute results deps).1 := by
  simp only [akey]
  rw [run_dependencies_lookup_preserved compute deps results k h]
  exact h

theorem run_dependencies_not_invoked (deps : List String)
    (results : List (String × V)) (k : String) (h : akey k results) :
    k ∉ (run_dependencies compute results deps).2 := by
  induction deps generalizing results with
  | nil => simp [run_dependencies]
  | cons dep deps ih =>
    simp only [run_dependencies]
    by_cases hd : akey dep results
    · rw [if_pos hd]
      exact ih results h
    · rw [if_neg hd]
      simp only [List.mem_cons, not_or]
      constructor
      · rintro rfl
        exact hd h
      · exact ih _ (akey_append_left k results [(dep, compute dep)] h)

theorem run_dependencies_all_present (deps : List String)
    (results : List (String × V)) (dep : String) (h : dep ∈ deps) :
    akey dep (run_dependencies compute results deps).1 := by
  induction deps generalizing results with
  | nil => cases h
  | cons d ds ih =>
    simp only [run_dependencies]
    rcases List.mem_cons.mp h with rfl | hmem
    · by_cases hd : akey dep results
      · rw [if_pos hd]
        exact run_dependencies_akey_preserved compute ds results dep hd
      · rw [if_neg hd]
        simp only
        exact run_dependencies_akey_preserved compute ds _ dep
          (akey_append_new dep results (compute dep) hd)
    · by_cases hd : akey d results
      · rw [if_pos hd]
        exact ih results hmem
      · rw [if_neg hd]
        simp only
        exact ih _ hmem

theorem run_dependencies_skip_all (deps : List String)
    (results : List (String × V)) (h : ∀ d ∈ deps, akey d results) :
    run_dependencies compute results deps = (results, []) := by
  induction deps with
  | nil => rfl
  | cons d ds ih =>
    simp only [run_dependencies, if_pos (h d (List.mem_cons_self d ds))]
    exact ih fun d' hd' => h d' (List.mem_cons_of_mem d hd')

theorem run_dependencies_nodup (deps : List String)
    (results : List (String × V)) :
    (run_dependencies compute results deps).2.Nodup := by
  induction deps generalizing results with
  | nil => simp [run_dependencies]
  | cons dep deps ih =>
    simp only [run_dependencies]
    by_cases hd : akey dep results
    · rw [if_pos hd]
      exact ih results
    · rw [if_neg hd]
      simp only [List.nodup_cons]
      exact ⟨run_dependencies_not_invoked compute deps _ dep
        (akey_append_new dep results (compute dep) hd), ih _⟩

end ResolverLemmas

end MemAnalysis

/-- C4: `run_dependencies` computes a dependency only when its key is
absent: a dependency already present keeps its stored value and its
computation is not invoked; every listed dependency is present in the
returned mapping; running the same list again on the returned mapping
invokes nothing and changes nothing, so across two runs each computation
runs at most once (the invocation list of one run is duplicate-free and the
second run invocation list is empty). -/
theorem c4_run_dependencies_memoization {V : Type} (compute : String → V)
    (results : List (String × V)) (deps : List String) :
    (∀ dep, akey dep results →
      alookup dep (MemAnalysis.run_dependencies compute results deps).1 =
        alookup dep results ∧
      dep ∉ (MemAnalysis.run_dependencies compute results deps).2) ∧
    (∀ dep ∈ deps, akey dep (MemAnalysis.run_dependencies compute results deps).1) ∧
    MemAnalysis.run_dependencies compute
        (MemAnalysis.run_dependencies compute results deps).1 deps =
      ((MemAnalysis.run_dependencies compute results deps).1, []) ∧
    (MemAnalysis.run_dependencies compute results deps).2.Nodup := by
  refine ⟨?_, ?_, ?_, MemAnalysis.run_dependencies_nodup compute deps results⟩
  · intro dep h
    exact ⟨MemAnalysis.run_dependencies_lookup_preserved compute deps results dep h,
      MemAnalysis.run_dependencies_not_invoked compute deps results dep h⟩
  · intro dep h
    exact MemAnalysis.run_dependencies_all_present compute deps results dep h
  · exact MemAnalysis.run_dependencies_skip_all compute deps _
      (fun d hd => MemAnalysis.run_dependencies_all_present compute deps results d hd)

/-- Witness for C4: one present facet is kept and not recomputed, the other
listed facet appears after the run. -/
theorem c4_run_dependencies_memoization_witness :
    alookup "dlllist"
      (MemAnalysis.run_dependencies (fun _ => (0 : Nat)) [("dlllist", 5)]
        ["dlllist", "psxview"]).1 = some 5 ∧
    "dlllist" ∉
      (MemAnalysis.run_dependencies (fun _ => (0 : Nat)) [("dlllist", 5)]
        ["dlllist", "psxview"]).2 ∧
    akey "psxview"
      (MemAnalysis.run_dependencies (fun _ => (0 : Nat)) [("dlllist", 5)]
        ["dlllist", "psxview"]).1 := by
  have h := c4_run_dependencies_memoization (fun _ => (0 : Nat)) [("dlllist", 5)]
    ["dlllist", "psxview"]
  obtain ⟨hpres, hni⟩ := h.1 "dlllist" (by decide)
  refine ⟨hpres.trans (by decide), hni, h.2.1 "psxview" (by simp)⟩

/-! ## Claim C8: trigger rule gating and fire counting -/

/-- C8: when the rule for the qualifying API is absent, disabled, or its
remaining fire count is not positive, `execute_trigger_parameters` performs
no action (no memory dump, no interactive session, no breakpoint) and
leaves the counters untouched; when it fires, the count of that API drops
by exactly one and every other counter is unchanged. -/
theorem c8_fire_count (env : Bson.TrigEnv) (times : String → Int)
    (apiname : String) (argdict : Bson.Args) :
    ((env.conf apiname = none ∨
      (∃ o, env.conf apiname = some o ∧ o.enabled = false) ∨
      times apiname ≤ 0) →
      Bson.execute_trigger_parameters env times apiname argdict = ([], times)) ∧
    (∀ o, env.conf apiname = some o → o.enabled = true →
      env.triggered_dumps = true → env.server = true → 0 < times apiname →
      (Bson.execute_trigger_parameters env times apiname argdict).2 apiname =
        times apiname - 1 ∧
      (∀ b, b ≠ apiname →
        (Bson.execute_trigger_parameters env times apiname argdict).2 b = times b)) := by
  constructor
  · intro h
    rcases h with h | ⟨o, ho, hdis⟩ | h
    · simp [Bson.execute_trigger_parameters, h]
    · simp [Bson.execute_trigger_parameters, ho, hdis]
    · cases hc : env.conf apiname with
      | none => simp [Bson.execute_trigger_parameters, hc]
      | some o =>
        simp only [Bson.execute_trigger_parameters, hc]
        rw [if_neg]
        rintro ⟨-, -, -, hpos⟩
        omega
  · intro o hc hen hdump hsrv hpos
    simp only [Bson.execute_trigger_parameters, hc]
    rw [if_pos ⟨hdump, hen, hsrv, hpos⟩]
    constructor
    · simp [Bson.reduce_times]
    · intro b hb
      simp [Bson.reduce_times, hb]

/-- Witness for C8: an absent rule performs nothing; an enabled rule with
one remaining fire decrements it to zero. -/
theorem c8_fire_count_witness :
    Bson.execute_trigger_parameters
      ⟨true, fun _ => none, true, [], []⟩ (fun _ => 3) "socket" [] =
      ([], fun _ => 3) ∧
    (Bson.execute_trigger_parameters
      ⟨true, fun _ => some ⟨true, true, false, false⟩, true, [], []⟩
      (fun _ => 1) "socket" []).2 "socket" = 0 := by
  constructor
  · exact (c8_fire_count ⟨true, fun _ => none, true, [], []⟩ (fun _ => 3) "socket" []).1
      (Or.inl rfl)
  · have h := (c8_fire_count ⟨true, fun _ => some ⟨true, true, false, false⟩, true, [], []⟩
      (fun _ => 1) "socket" []).2 ⟨true, true, false, false⟩ rfl rfl rfl rfl (by norm_num)
    rw [h.1]
    norm_num

/-! ## Claim C6: unknown schema index and argument count mismatch -/

/-- C6: in the regular-call branch, a message whose index has no registered
schema, or whose argument list length differs from the schema argument-name
count, is dropped: the step returns `True`, emits no event (in particular
no `log_call`), requests no trigger, and leaves both the schema table and
the Call History unchanged. -/
theorem c6_dropped_messages (server : Bool) (infomap : List (Int × Bson.Schema))
    (apis : List (String × Bson.Args)) (msg : Bson.CallMsg) :
    (alookup msg.index infomap = none →
      Bson.handle_call server infomap apis msg = some ⟨infomap, apis, [], [], true⟩) ∧
    (∀ sch, alookup msg.index infomap = some sch →
      msg.args.length ≠ sch.argnames.length →
      Bson.handle_call server infomap apis msg = some ⟨infomap, apis, [], [], true⟩) := by
  constructor
  · intro h
    simp only [Bson.handle_call, h]
  · intro sch hs hlen
    simp only [Bson.handle_call, hs, if_pos hlen]

/-- Witness for C6: an unregistered index 1 and a registered index 2 with a
one-name schema receiving zero arguments are both dropped unchanged. -/
theorem c6_dropped_messages_witness :
    Bson.handle_call true [] [] ⟨1, 0, 0, [], []⟩ = some ⟨[], [], [], [], true⟩ ∧
    Bson.handle_call true [(2, ⟨"Foo", [], ["a"], [ConvTag.dflt], "misc"⟩)] []
      ⟨2, 0, 0, [], []⟩ =
      some ⟨[(2, ⟨"Foo", [], ["a"], [ConvTag.dflt], "misc"⟩)], [], [], [], true⟩ := by
  refine ⟨(c6_dropped_messages true [] [] ⟨1, 0, 0, [], []⟩).1 rfl, ?_⟩
  exact (c6_dropped_messages true [(2, ⟨"Foo", [], ["a"], [ConvTag.dflt], "misc"⟩)] []
    ⟨2, 0, 0, [], []⟩).2 ⟨"Foo", [], ["a"], [ConvTag.dflt], "misc"⟩ rfl (by decide)

/-! ## Claim C10: the DLL-list diff -/

namespace MemAnalysis

theorem get_new_dlllist_sound (old : List DllProc) :
    ∀ (ps : List DllProc) (acc : List AnnModule) (a : AnnModule),
      a ∈ ps.foldl (fun acc proc =>
        match old.find? (fun p => p.process_id == proc.process_id) with
        | none => acc
        | some old_p =>
          acc ++ (proc.loaded_modules.filter fun m =>
            !(old_p.loaded_modules.any fun m2 => m2.dll_full_name == m.dll_full_name)).map
            fun m => AnnModule.mk m proc.process_id proc.process_name) acc →
      a ∈ acc ∨ ∃ proc ∈ ps, ∃ old_p,
        old.find? (fun p => p.process_id == proc.process_id) = some old_p ∧
        a.module ∈ proc.loaded_modules ∧
        (∀ m2 ∈ old_p.loaded_modules, m2.dll_full_name ≠ a.module.dll_full_name) ∧
        a.process_id = proc.process_id ∧ a.process_name = proc.process_name := by
  intro ps
  induction ps with
  | nil =>
    intro acc a h
    exact Or.inl h
  | cons proc ps ih =>
    intro acc a h
    rw [List.foldl_cons] at h
    rcases ih _ a h with hacc | ⟨proc', hpm, old_p, hf, hrest⟩
    · cases hf : old.find? (fun p => p.process_id == proc.process_id) with
      | none =>
        rw [hf] at hacc
        exact Or.inl hacc
      | some old_p =>
        rw [hf] at hacc
        rcases List.mem_append.mp hacc with h1 | h2
        · exact Or.inl h1
        · rcases List.mem_map.mp h2 with ⟨m, hm, rfl⟩
          rcases List.mem_filter.mp hm with ⟨hmem, hcond⟩
          refine Or.inr ⟨proc, List.mem_cons_self _ _, old_p, hf, hmem, ?_, rfl, rfl⟩
          intro m2 hm2 heq
          simp only [Bool.not_eq_true', List.any_eq_false] at hcond
          exact hcond m2 hm2 (beq_iff_eq.mpr heq)
    · exact Or.inr ⟨proc', List.mem_cons_of_mem _ hpm, old_p, hf, hrest⟩

end MemAnalysis

/-- C10: every module returned by the DLL-list diff originates in a new
process whose process id is matched (first match) by a process of the old
snapshot (so the id appears in both snapshots), is one of the new process
modules whose full path appears nowhere in the matched old process module
list, and is annotated with the owning process id and name. In particular a
new process with no pid match in `old` contributes nothing. -/
theorem c10_dlllist_diff (old new : List MemAnalysis.DllProc)
    (a : MemAnalysis.AnnModule) (h : a ∈ MemAnalysis.get_new_dlllist old new) :
    ∃ proc ∈ new, ∃ old_p,
      old.find? (fun p => p.process_id == proc.process_id) = some old_p ∧
      (∃ p2 ∈ old, p2.process_id = proc.process_id) ∧
      a.module ∈ proc.loaded_modules ∧
      (∀ m2 ∈ old_p.loaded_modules, m2.dll_full_name ≠ a.module.dll_full_name) ∧
      a.process_id = proc.process_id ∧ a.process_name = proc.process_name := by
  rcases MemAnalysis.get_new_dlllist_sound old new [] a h with hacc | hex
  · cases hacc
  · rcases hex with ⟨proc, hpm, old_p, hf, h1, h2, h3, h4⟩
    refine ⟨proc, hpm, old_p, hf, ⟨old_p, List.mem_of_find?_eq_some hf, ?_⟩, h1, h2, h3, h4⟩
    have := List.find?_some hf
    exact beq_iff_eq.mp this

/-- Witness for C10 at the spec scenario: old has pid 4 with module A, new
has pid 4 with modules A and B; the diff is exactly B annotated with pid 4
and the process name. -/
theorem c10_dlllist_diff_witness :
    MemAnalysis.get_new_dlllist
      [⟨4, "calc.exe", [⟨"C:\\windows\\a.dll", []⟩]⟩]
      [⟨4, "calc.exe", [⟨"C:\\windows\\a.dll", []⟩, ⟨"C:\\evil\\b.dll", []⟩]⟩] =
      [⟨⟨"C:\\evil\\b.dll", []⟩, 4, "calc.exe"⟩] ∧
    (∃ proc ∈ [(⟨4, "calc.exe", [⟨"C:\\windows\\a.dll", []⟩, ⟨"C:\\evil\\b.dll", []⟩]⟩ :
        MemAnalysis.DllProc)], ∃ old_p,
      [(⟨4, "calc.exe", [⟨"C:\\windows\\a.dll", []⟩]⟩ : MemAnalysis.DllProc)].find?
        (fun p => p.process_id == proc.process_id) = some old_p ∧
      (∃ p2 ∈ [(⟨4, "calc.exe", [⟨"C:\\windows\\a.dll", []⟩]⟩ : MemAnalysis.DllProc)],
        p2.process_id = proc.process_id) ∧
      (⟨⟨"C:\\evil\\b.dll", []⟩, 4, "calc.exe"⟩ : MemAnalysis.AnnModule).module ∈
        proc.loaded_modules ∧
      (∀ m2 ∈ old_p.loaded_modules,
        m2.dll_full_name ≠
          (⟨⟨"C:\\evil\\b.dll", []⟩, 4, "calc.exe"⟩ :
            MemAnalysis.AnnModule).module.dll_full_name) ∧
      (⟨⟨"C:\\evil\\b.dll", []⟩, 4, "calc.exe"⟩ :
        MemAnalysis.AnnModule).process_id = proc.process_id ∧
      (⟨⟨"C:\\evil\\b.dll", []⟩, 4, "calc.exe"⟩ :
        MemAnalysis.AnnModule).process_name = proc.process_name) := by
  refine ⟨by decide, ?_⟩
  exact c10_dlllist_diff _ _ _ (by decide)

/-! ## Claim C7: the connection diff and its exclusion list -/

theorem alookup_eq_none_of_not_mem {K V : Type} [DecidableEq K] (k : K)
    (l : List (K × V)) (h : k ∉ l.map Prod.fst) : alookup k l = none := by
  induction l with
  | nil => rfl
  | cons a rest ih =>
    simp only [List.map_cons, List.mem_cons, not_or] at h
    have hne : ¬ (a.1 = k) := fun hh => h.1 hh.symm
    simp only [alookup, if_neg hne]
    exact ih h.2

namespace MemAnalysis

theorem requiv_iff (r1 r2 : Rec) :
    requiv r1 r2 = true ↔ ∀ k, alookup k r1 = alookup k r2 := by
  constructor
  · intro h k
    by_cases h1 : k ∈ rkeys r1 ++ rkeys r2
    · rw [requiv, List.all_eq_true] at h
      exact beq_iff_eq.mp (h k h1)
    · simp only [List.mem_append, not_or] at h1
      rw [alookup_eq_none_of_not_mem k r1 h1.1, alookup_eq_none_of_not_mem k r2 h1.2]
  · intro h
    rw [requiv, List.all_eq_true]
    intro k _
    exact beq_iff_eq.mpr (h k)

theorem requiv_refl (r : Rec) : requiv r r = true :=
  (requiv_iff r r).mpr fun _ => rfl

theorem requiv_symm {r1 r2 : Rec} (h : requiv r1 r2 = true) : requiv r2 r1 = true :=
  (requiv_iff r2 r1).mpr fun k => ((requiv_iff r1 r2).mp h k).symm

theorem requiv_trans {r1 r2 r3 : Rec} (h1 : requiv r1 r2 = true)
    (h2 : requiv r2 r3 = true) : requiv r1 r3 = true :=
  (requiv_iff r1 r3).mpr fun k =>
    ((requiv_iff r1 r2).mp h1 k).trans ((requiv_iff r2 r3).mp h2 k)

theorem memR_of_requiv {c c' : Rec} {l : List Rec} (h : requiv c c' = true)
    (hm : memR c' l = true) : memR c l = true := by
  rw [memR, List.any_eq_true] at hm ⊢
  rcases hm with ⟨x, hx, hcx⟩
  exact ⟨x, hx, requiv_trans h hcx⟩

theorem memR_congr {c c' : Rec} (l : List Rec) (h : requiv c c' = true) :
    memR c l = memR c' l := by
  cases hb : memR c' l
  · cases hb' : memR c l
    · rfl
    · exact absurd (memR_of_requiv (requiv_symm h) hb') (by rw [hb]; exact Bool.false_ne_true)
  · exact memR_of_requiv h hb

theorem connExcluded_congr {c c' : Rec} (h : requiv c c' = true) :
    connExcluded c = connExcluded c' := by
  rw [connExcluded, connExcluded, (requiv_iff c c').mp h "local_port",
    (requiv_iff c c').mp h "remote_port", (requiv_iff c c').mp h "remote_address"]

theorem memR_append (c : Rec) (l1 l2 : List Rec) :
    memR c (l1 ++ l2) = (memR c l1 || memR c l2) := by
  simp [memR, List.any_append]

theorem memR_filter (c : Rec) (l : List Rec) (p : Rec → Bool)
    (hp : ∀ x y, requiv x y = true → p x = p y) :
    memR c (l.filter p) = (memR c l && p c) := by
  induction l with
  | nil => simp [memR]
  | cons r rest ih =>
    by_cases hr : p r = true
    · rw [List.filter_cons_of_pos hr]
      simp only [memR, List.any_cons] at ih ⊢
      cases hcr : requiv c r
      · simpa [hcr] using ih
      · have : p c = true := (hp c r hcr).trans hr
        simp [hcr, this]
    · rw [List.filter_cons_of_neg hr]
      simp only [memR, List.any_cons] at ih ⊢
      cases hcr : requiv c r
      · simpa [hcr] using ih
      · have : p c = false := (hp c r hcr).trans (Bool.not_eq_true _ ▸ eq_false_of_ne_true hr)
        simp [hcr, this, ih]

theorem memR_dedupR_aux (c : Rec) :
    ∀ (l : List Rec) (acc : List Rec),
      memR c (l.foldl (fun acc r => if memR r acc then acc else acc ++ [r]) acc) =
        (memR c acc || memR c l) := by
  intro l
  induction l with
  | nil => intro acc; simp [memR]
  | cons r rest ih =>
    intro acc
    rw [List.foldl_cons]
    by_cases hr : memR r acc = true
    · rw [if_pos hr, ih]
      simp only [memR, List.any_cons]
      cases hcr : requiv c r
      · rfl
      · have : memR c acc = true := memR_of_requiv hcr hr
        simp [memR] at this
        simp [this]
    · rw [if_neg hr, ih, memR_append]
      simp only [memR, List.any_cons, List.any_nil]
      cases hcr : requiv c r <;> cases hacc : (acc.any (requiv c)) <;> simp
  
theorem memR_dedupR (c : Rec) (l : List Rec) : memR c (dedupR l) = memR c l := by
  rw [dedupR, memR_dedupR_aux]
  simp [memR]

/-- Membership in the raw new-object diff, at the data level. -/
theorem memR_get_new_objects (old new : Snap) (deps : List String) (c : Rec) :
    memR c (get_new_objects old new deps) =
      (memR c (united new deps) && !memR c (united old deps)) := by
  rw [get_new_objects, memR_dedupR,
    memR_filter c _ _ (fun x y hxy => by rw [memR_congr _ hxy])]

end MemAnalysis

/-- C7: the connection diff returns exactly the raw identity-set diff
(records of the union of the new snapshot dependency data having no
field-by-field equal record in the old union) minus the fixed exclusion
list; no returned record has `local_port = 8000`, `remote_port = 2042` or
`remote_address = "293.268.122.1"`, and exclusion applies whether or not
the record exists in `old`. -/
theorem c7_connection_diff (old new : MemAnalysis.Snap) (deps : List String) (c : MemAnalysis.Rec) :
    (MemAnalysis.memR c (MemAnalysis.get_new_connections old new deps) = true ↔
      MemAnalysis.memR c (MemAnalysis.united new deps) = true ∧
      MemAnalysis.memR c (MemAnalysis.united old deps) = false ∧
      MemAnalysis.connExcluded c = false) ∧
    (∀ r ∈ MemAnalysis.get_new_connections old new deps,
      r ∈ MemAnalysis.get_new_objects old new deps ∧
      alookup "local_port" r ≠ some (Value.vint 8000) ∧
      alookup "remote_port" r ≠ some (Value.vint 2042) ∧
      alookup "remote_address" r ≠ some (Value.vstr "293.268.122.1")) ∧
    (∀ r ∈ MemAnalysis.get_new_objects old new deps,
      MemAnalysis.connExcluded r = false →
      r ∈ MemAnalysis.get_new_connections old new deps) := by
  refine ⟨?_, ?_, ?_⟩
  · rw [MemAnalysis.get_new_connections,
      MemAnalysis.memR_filter c _ _ (fun x y hxy => by rw [MemAnalysis.connExcluded_congr hxy]),
      MemAnalysis.memR_get_new_objects]
    constructor
    · intro h
      simp only [Bool.and_eq_true, Bool.not_eq_true'] at h
      exact ⟨h.1.1, h.1.2, h.2⟩
    · rintro ⟨h1, h2, h3⟩
      simp only [Bool.and_eq_true, Bool.not_eq_true']
      exact ⟨⟨h1, h2⟩, h3⟩
  · intro r hr
    rcases List.mem_filter.mp hr with ⟨hobj, hcond⟩
    rw [Bool.not_eq_true', MemAnalysis.connExcluded] at hcond
    simp only [Bool.or_eq_false_iff, beq_eq_false_iff_ne, ne_eq] at hcond
    exact ⟨hobj, hcond.1.1, hcond.1.2, hcond.2⟩
  · intro r hr hexcl
    exact List.mem_filter.mpr ⟨hr, by rw [hexcl]; rfl⟩

/-- Witness for C7: a connection with `remote_port = 2042`, absent from the
old snapshot, is still excluded from the diff; a non-noisy connection is
reported. -/
theorem c7_connection_diff_witness :
    MemAnalysis.memR
      [("local_port", Value.vint 1), ("remote_port", Value.vint 2042),
       ("remote_address", Value.vstr "1.2.3.4")]
      (MemAnalysis.get_new_connections (fun _ => [])
        (fun _ => [[("local_port", Value.vint 1), ("remote_port", Value.vint 2042),
          ("remote_address", Value.vstr "1.2.3.4")]]) ["connections"]) = false ∧
    MemAnalysis.memR
      [("local_port", Value.vint 1), ("remote_port", Value.vint 80),
       ("remote_address", Value.vstr "1.2.3.4")]
      (MemAnalysis.get_new_connections (fun _ => [])
        (fun _ => [[("local_port", Value.vint 1), ("remote_port", Value.vint 80),
          ("remote_address", Value.vstr "1.2.3.4")]]) ["connections"]) = true := by
  constructor
  · have h := (c7_connection_diff (fun _ => [])
      (fun _ => [[("local_port", Value.vint 1), ("remote_port", Value.vint 2042),
        ("remote_address", Value.vstr "1.2.3.4")]]) ["connections"]
      [("local_port", Value.vint 1), ("remote_port", Value.vint 2042),
       ("remote_address", Value.vstr "1.2.3.4")]).1
    cases hb : MemAnalysis.memR
      [("local_port", Value.vint 1), ("remote_port", Value.vint 2042),
       ("remote_address", Value.vstr "1.2.3.4")]
      (MemAnalysis.get_new_connections (fun _ => [])
        (fun _ => [[("local_port", Value.vint 1), ("remote_port", Value.vint 2042),
          ("remote_address", Value.vstr "1.2.3.4")]]) ["connections"]) with
    | false => rfl
    | true => exact absurd (h.mp hb).2.2 (by decide)
  · exact ((c7_connection_diff (fun _ => [])
      (fun _ => [[("local_port", Value.vint 1), ("remote_port", Value.vint 80),
        ("remote_address", Value.vstr "1.2.3.4")]]) ["connections"]
      [("local_port", Value.vint 1), ("remote_port", Value.vint 80),
       ("remote_address", Value.vstr "1.2.3.4")]).1).mpr
      ⟨by decide, by decide, by decide⟩

/-! ## Claim C3: smart escalation marks facets starred -/

namespace MemAnalysis

theorem alookup_dmapAt {ρ : Type} (k p : String) (f : DiffEntry ρ → DiffEntry ρ)
    (d : Diffs ρ) :
    alookup p (dmapAt k f d) =
      if k = p then (alookup p d).map f else alookup p d := by
  induction d with
  | nil =>
    by_cases hk : k = p <;> simp [dmapAt, alookup, hk]
  | cons a rest ih =>
    obtain ⟨k', e⟩ := a
    rw [dmapAt]
    by_cases hk : k' = k
    · rw [if_pos hk]
      by_cases hp : k' = p
      · have hkp : k = p := hk.symm.trans hp
        rw [alookup, if_pos hp, alookup, if_pos hp, if_pos hkp]
        rfl
      · have hkp : ¬ (k = p) := fun hh => hp (hk.trans hh)
        rw [alookup, if_neg hp, alookup, if_neg hp, if_neg hkp]
    · rw [if_neg hk]
      by_cases hp : k' = p
      · have hkp : ¬ (k = p) := fun hh => hk (hp.trans hh.symm)
        rw [alookup, if_pos hp, alookup, if_pos hp, if_neg hkp]
      · rw [alookup, if_neg hp, alookup, if_neg hp, ih]

theorem alookup_aset {K V : Type} [DecidableEq K] (k p : K) (v : V)
    (l : List (K × V)) :
    alookup p (aset k v l) = if k = p then some v else alookup p l := by
  induction l with
  | nil => simp [aset, alookup]
  | cons a rest ih =>
    obtain ⟨k', v'⟩ := a
    by_cases hk : k' = k
    · subst hk
      by_cases hp : k' = p
      · subst hp
        simp [aset, alookup]
      · rw [aset, if_pos rfl, alookup, if_neg hp, alookup, if_neg hp,
          if_neg (fun hh => hp hh)]
    · by_cases hp : k' = p
      · subst hp
        rw [aset, if_neg hk, alookup, if_pos rfl, alookup, if_pos rfl,
          if_neg (fun hh => hk hh.symm)]
      · rw [aset, if_neg hk, alookup, if_neg hp, alookup, if_neg hp, ih]

theorem starYes_dstar_of_starYes {ρ : Type} {p : String} (q : String) {d : Diffs ρ}
    (h : ∃ e, alookup p d = some e ∧ e.star = "yes") :
    ∃ e, alookup p (dstar q d) = some e ∧ e.star = "yes" := by
  rcases h with ⟨e, he, hs⟩
  rw [dstar]
  by_cases hq : q = p
  · exact ⟨{ e with star := "yes" }, by rw [alookup_dmapAt, if_pos hq, he]; rfl, rfl⟩
  · exact ⟨e, by rw [alookup_dmapAt, if_neg hq]; exact he, hs⟩

theorem starYes_dstar_self {ρ : Type} {p : String} {d : Diffs ρ}
    (h : akey p d = true) :
    ∃ e, alookup p (dstar p d) = some e ∧ e.star = "yes" := by
  rw [akey, Option.isSome_iff_exists] at h
  rcases h with ⟨e, he⟩
  exact ⟨{ e with star := "yes" },
    by rw [dstar, alookup_dmapAt, if_pos rfl, he]; rfl, rfl⟩

theorem akey_dstar {ρ : Type} (p q : String) (d : Diffs ρ) :
    akey p (dstar q d) = akey p d := by
  rw [akey, akey, dstar, alookup_dmapAt]
  by_cases hq : q = p
  · rw [if_pos hq]
    cases alookup p d <;> rfl
  · rw [if_neg hq]

theorem starYes_markSmart_of_starYes {ρ : Type} (ps : List String) {p : String}
    {d : Diffs ρ} (h : ∃ e, alookup p d = some e ∧ e.star = "yes") :
    ∃ e, alookup p (markSmart ps d) = some e ∧ e.star = "yes" := by
  induction ps generalizing d with
  | nil => exact h
  | cons q qs ih =>
    rw [markSmart, List.foldl_cons]
    by_cases hq : akey q d = true
    · rw [if_pos hq]
      exact ih (starYes_dstar_of_starYes q h)
    · rw [if_neg hq]
      exact ih h

theorem starYes_markSmart {ρ : Type} (ps : List String) {p : String}
    {d : Diffs ρ} (hp : p ∈ ps) (h : akey p d = true) :
    ∃ e, alookup p (markSmart ps d) = some e ∧ e.star = "yes" := by
  induction ps generalizing d with
  | nil => cases hp
  | cons q qs ih =>
    rw [markSmart, List.foldl_cons]
    rcases List.mem_cons.mp hp with rfl | hmem
    · rw [if_pos h]
      exact starYes_markSmart_of_starYes qs (starYes_dstar_self h)
    · by_cases hq : akey q d = true
      · rw [if_pos hq]
        exact ih hmem (by rw [akey_dstar]; exact h)
      · rw [if_neg hq]
        exact ih hmem h

theorem starYes_dmodify {ρ : Type} {k : String} {f : DiffEntry ρ → DiffEntry ρ}
    {d d' : Diffs ρ} (hmod : dmodify k f d = some d')
    (hf : ∀ e, (f e).star = e.star ∨ (f e).star = "yes")
    {p : String} (h : ∃ e, alookup p d = some e ∧ e.star = "yes") :
    ∃ e, alookup p d' = some e ∧ e.star = "yes" := by
  rw [dmodify] at hmod
  by_cases hk : akey k d = true
  · rw [if_pos hk] at hmod
    cases hmod
    rcases h with ⟨e, he, hs⟩
    by_cases hkp : k = p
    · refine ⟨f e, by rw [alookup_dmapAt, if_pos hkp, he]; rfl, ?_⟩
      rcases hf e with h1 | h1
      · rw [h1, hs]
      · exact h1
    · exact ⟨e, by rw [alookup_dmapAt, if_neg hkp]; exact he, hs⟩
  · rw [if_neg hk] at hmod
    cases hmod

theorem starYes_aset {ρ : Type} {k : String} {e0 : DiffEntry ρ}
    (hs0 : e0.star = "yes") {p : String} {d : Diffs ρ}
    (h : ∃ e, alookup p d = some e ∧ e.star = "yes") :
    ∃ e, alookup p (aset k e0 d) = some e ∧ e.star = "yes" := by
  rcases h with ⟨e, he, hs⟩
  by_cases hkp : k = p
  · exact ⟨e0, by rw [alookup_aset, if_pos hkp], hs0⟩
  · exact ⟨e, by rw [alookup_aset, if_neg hkp]; exact he, hs⟩

theorem starYes_triggerPost {ρ : Type} {trigger : String} {ext : ExtData ρ}
    {d d' : Diffs ρ} (hpost : triggerPost trigger ext d = some d')
    {p : String} (h : ∃ e, alookup p d = some e ∧ e.star = "yes") :
    ∃ e, alookup p d' = some e ∧ e.star = "yes" := by
  rw [triggerPost] at hpost
  by_cases h1 : trigger = "monitorCPU"
  · rw [if_pos h1] at hpost
    cases hpost
    by_cases hk : akey "diff_heap_entropy" d = true
    · rw [if_pos hk]
      exact starYes_dstar_of_starYes _ h
    · rw [if_neg hk]
      exact h
  rw [if_neg h1] at hpost
  by_cases h2 : trigger = "ZwLoadDriver"
  · rw [if_pos h2] at hpost
    by_cases hemp : ext.patcherRecs.isEmpty = true
    · rw [if_pos hemp] at hpost
      cases hpost
      exact h
    · rw [if_neg hemp] at hpost
      exact starYes_dmodify hpost (fun e => Or.inl rfl) h
  rw [if_neg h2] at hpost
  by_cases h3 : trigger = "SetWindowsHookExA" ∨ trigger = "SetWindowsHookExW"
  · rw [if_pos h3] at hpost
    by_cases hk : akey "diff_messagehooks" d = true
    · rw [if_pos hk] at hpost
      by_cases hemp : ext.hookRecs.isEmpty = true
      · rw [if_pos hemp] at hpost
        cases hpost
        exact h
      · rw [if_neg hemp] at hpost
        exact starYes_dmodify hpost (fun e => Or.inr rfl) h
    · rw [if_neg hk] at hpost
      cases hpost
      exact h
  rw [if_neg h3] at hpost
  by_cases h4 : trigger = "VirtualProtectEx"
  · rw [if_pos h4] at hpost
    cases hvp : ext.vpRec with
    | none =>
      rw [hvp] at hpost
      cases hpost
    | some r =>
      rw [hvp] at hpost
      rcases Option.bind_eq_some.mp hpost with ⟨dmid, hmid, hfin⟩
      by_cases hexec : ext.vpExec = true
      · rw [if_pos hexec] at hmid
        exact starYes_dmodify hfin (fun e => Or.inr rfl)
          (starYes_dmodify hmid (fun e => Or.inl rfl) h)
      · rw [if_neg hexec] at hmid
        exact starYes_dmodify hfin (fun e => Or.inr rfl)
          (starYes_dmodify hmid (fun e => Or.inl rfl) h)
  rw [if_neg h4] at hpost
  by_cases h5 : trigger = "WriteProcessMemory -> CreateRemoteThread -> LoadLibrary"
  · rw [if_pos h5] at hpost
    cases hpost
    exact starYes_aset rfl h
  rw [if_neg h5] at hpost
  by_cases h6 : trigger = "NtSetContextThread -> NtResumeThread"
  · rw [if_pos h6] at hpost
    cases hpost
    exact starYes_aset rfl h
  rw [if_neg h6] at hpost
  by_cases h7 : trigger = "WriteProcessMemory -> CreateRemoteThread"
  · rw [if_pos h7] at hpost
    cases hpost
    exact starYes_aset rfl h
  rw [if_neg h7] at hpost
  cases hpost
  exact h

end MemAnalysis

/-- C3 (amended): with smart escalation enabled for the firing trigger,
every facet of the trigger escalation list that has a diff entry when the
escalation phase starts ends the pass with its entry marked `star:"yes"`;
a listed facet with no diff entry (e.g. a facet not enabled in the memory
configuration) gets no entry and no mark. -/
theorem c3_smart_escalation {ρ : Type} (tp : List (String × List String))
    (trigger : String) (ext : MemAnalysis.ExtData ρ) (d0 : MemAnalysis.Diffs ρ)
    (d' : MemAnalysis.Diffs ρ) (ps : List String) (p : String)
    (hps : alookup trigger tp = some ps) (hp : p ∈ ps)
    (hkey : akey p (MemAnalysis.injectBase d0) = true)
    (hesc : MemAnalysis.escalate tp trigger true ext d0 = some d') :
    ∃ e, alookup p d' = some e ∧ e.star = "yes" := by
  rw [MemAnalysis.escalate, if_pos rfl, hps] at hesc
  exact MemAnalysis.starYes_triggerPost hesc
    (MemAnalysis.starYes_markSmart ps hp hkey)

/-- C3 counterexample: a trigger whose escalation list names a facet with
no diff entry (here `diff_handles`, starting from an empty diff result)
completes the pass without that facet being present at all, let alone
marked `star:"yes"` — refuting the claim that every listed facet ends the
pass starred. -/
theorem c3_counterexample :
    ¬ (∀ p ∈ (["diff_handles"] : List String), ∀ d',
        MemAnalysis.escalate [("socket", ["diff_handles"])] "socket" true
          ({} : MemAnalysis.ExtData Nat) [] = some d' →
        ∃ e, alookup p d' = some e ∧ e.star = "yes") := by
  intro h
  have hd : MemAnalysis.escalate [("socket", ["diff_handles"])] "socket" true
      ({} : MemAnalysis.ExtData Nat) [] = some
      [("injected_thread", { desc := "Shows the injected thread" }),
       ("injected_dll", { desc := "Finds the injected dll and dumps it" })] := rfl
  rcases h "diff_handles" (by simp) _ hd with ⟨e, he, -⟩
  rw [show alookup "diff_handles"
      ([("injected_thread", { desc := "Shows the injected thread" }),
        ("injected_dll", { desc := "Finds the injected dll and dumps it" })] :
        MemAnalysis.Diffs Nat) = none from rfl] at he
  cases he

/-- Witness for C3: a facet of the escalation list that has a diff entry
at escalation time ends the pass starred. -/
theorem c3_smart_escalation_witness :
    ∃ e, alookup "diff_handles"
      [("diff_handles",
         ({ desc := "handle diff", star := "yes" } : MemAnalysis.DiffEntry Nat)),
       ("injected_thread", { desc := "Shows the injected thread" }),
       ("injected_dll", { desc := "Finds the injected dll and dumps it" })] =
      some e ∧ e.star = "yes" := by
  exact c3_smart_escalation [("socket", ["diff_handles"])] "socket"
    ({} : MemAnalysis.ExtData Nat)
    [("diff_handles", { desc := "handle diff" })] _ ["diff_handles"] "diff_handles"
    rfl (by simp) (by decide) rfl

/-! ## Claim C1: the three-step injection chain -/

namespace Bson

theorem ldrScan_no_match (all : List (String × Args)) (wpm argdict : Args)
    (hv pv : Value)
    (hwh : alookup "ProcessHandle" wpm = some hv)
    (hpid : alookup "ProcessId" argdict = some pv) :
    ∀ scan : List (String × Args),
      (∀ a, ("CreateRemoteThread", a) ∈ scan →
        ∃ h', alookup "ProcessHandle" a = some h' ∧
          (h' ≠ hv ∨ ∃ p', alookup "ProcessId" a = some p' ∧ p' ≠ pv)) →
      ldrScan all wpm argdict scan = some ([], all) := by
  intro scan
  induction scan with
  | nil =>
    intro _
    rfl
  | cons a rest ih =>
    intro hcond
    obtain ⟨name, args⟩ := a
    rw [ldrScan]
    by_cases hn : name = "CreateRemoteThread"
    · rw [if_pos hn]
      subst hn
      rcases hcond args (List.mem_cons_self _ _) with ⟨h', hh', hdisj⟩
      simp only [hh', hwh]
      rcases hdisj with hne | ⟨p', hp', hpne⟩
      · rw [if_neg hne]
        exact ih fun a ha => hcond a (List.mem_cons_of_mem _ ha)
      · by_cases hhv : h' = hv
        · rw [if_pos hhv]
          simp only [hpid, hp']
          rw [if_neg (fun hh => hpne hh.symm)]
          exact ih fun a ha => hcond a (List.mem_cons_of_mem _ ha)
        · rw [if_neg hhv]
          exact ih fun a ha => hcond a (List.mem_cons_of_mem _ ha)
    · rw [if_neg hn]
      exact ih fun a ha => hcond a (List.mem_cons_of_mem _ ha)

theorem ldrScan_fire (all : List (String × Args)) (wpm argdict c : Args)
    (hv pv : Value) (l1 l2 : List (String × Args))
    (hwh : alookup "ProcessHandle" wpm = some hv)
    (hpid : alookup "ProcessId" argdict = some pv)
    (hch : alookup "ProcessHandle" c = some hv)
    (hcp : alookup "ProcessId" c = some pv)
    (hl1 : ∀ a, ("CreateRemoteThread", a) ∈ l1 →
      ∃ h', alookup "ProcessHandle" a = some h' ∧
        (h' ≠ hv ∨ ∃ p', alookup "ProcessId" a = some p' ∧ p' ≠ pv)) :
    ldrScan all wpm argdict (l1 ++ ("CreateRemoteThread", c) :: l2) =
      some ([("WriteProcessMemory -> CreateRemoteThread -> LoadLibrary", argdict)],
        removeFirst (removeFirst all ("WriteProcessMemory", wpm))
          ("CreateRemoteThread", c)) := by
  induction l1 with
  | nil =>
    rw [List.nil_append, ldrScan, if_pos rfl]
    simp [hch, hwh, hpid, hcp]
  | cons a rest ih =>
    obtain ⟨name, args⟩ := a
    rw [List.cons_append, ldrScan]
    by_cases hn : name = "CreateRemoteThread"
    · rw [if_pos hn]
      subst hn
      rcases hl1 args (List.mem_cons_self _ _) with ⟨h', hh', hdisj⟩
      simp only [hh', hwh]
      rcases hdisj with hne | ⟨p', hp', hpne⟩
      · rw [if_neg hne]
        exact ih fun a ha => hl1 a (List.mem_cons_of_mem _ ha)
      · by_cases hhv : h' = hv
        · rw [if_pos hhv]
          simp only [hpid, hp']
          rw [if_neg (fun hh => hpne hh.symm)]
          exact ih fun a ha => hl1 a (List.mem_cons_of_mem _ ha)
        · rw [if_neg hhv]
          exact ih fun a ha => hl1 a (List.mem_cons_of_mem _ ha)
    · rw [if_neg hn]
      exact ih fun a ha => hl1 a (List.mem_cons_of_mem _ ha)

end Bson

/-- C1 (amended): the three-step chain keys off the first
`WriteProcessMemory` entry of the Call History. If that first entry shares
its `ProcessHandle` with the first qualifying `CreateRemoteThread` entry
whose `ProcessId` equals the `LdrLoadDll` event `ProcessId`, the trigger
`"WriteProcessMemory -> CreateRemoteThread -> LoadLibrary"` fires exactly
once (one invocation) and exactly those two entries are removed from the
history; with no `WriteProcessMemory` in history, or none of the
`CreateRemoteThread` entries matching the first `WriteProcessMemory` and
the event `ProcessId` (e.g. after a completed chain consumed them), nothing
fires and the history is unchanged. -/
theorem c1_ldr_chain :
    (∀ (apis : List (String × Bson.Args)) (argdict w c : Bson.Args)
        (hv pv : Value) (l1 l2 : List (String × Bson.Args)),
      Bson.findApi "WriteProcessMemory" apis = some w →
      alookup "ProcessHandle" w = some hv →
      alookup "ProcessId" argdict = some pv →
      apis = l1 ++ ("CreateRemoteThread", c) :: l2 →
      alookup "ProcessHandle" c = some hv →
      alookup "ProcessId" c = some pv →
      (∀ a, ("CreateRemoteThread", a) ∈ l1 →
        ∃ h', alookup "ProcessHandle" a = some h' ∧
          (h' ≠ hv ∨ ∃ p', alookup "ProcessId" a = some p' ∧ p' ≠ pv)) →
      Bson.ldrStep apis argdict =
        some ([("WriteProcessMemory -> CreateRemoteThread -> LoadLibrary", argdict)],
          Bson.removeFirst (Bson.removeFirst apis ("WriteProcessMemory", w))
            ("CreateRemoteThread", c))) ∧
    (∀ (apis : List (String × Bson.Args)) (argdict : Bson.Args),
      Bson.findApi "WriteProcessMemory" apis = none →
      Bson.ldrStep apis argdict = some ([], apis)) ∧
    (∀ (apis : List (String × Bson.Args)) (argdict w : Bson.Args) (hv pv : Value),
      Bson.findApi "WriteProcessMemory" apis = some w →
      alookup "ProcessHandle" w = some hv →
      alookup "ProcessId" argdict = some pv →
      (∀ a, ("CreateRemoteThread", a) ∈ apis →
        ∃ h', alookup "ProcessHandle" a = some h' ∧
          (h' ≠ hv ∨ ∃ p', alookup "ProcessId" a = some p' ∧ p' ≠ pv)) →
      Bson.ldrStep apis argdict = some ([], apis)) := by
  refine ⟨?_, ?_, ?_⟩
  · intro apis argdict w c hv pv l1 l2 hfind hwh hpid hsplit hch hcp hl1
    rw [Bson.ldrStep, hfind]
    rw [hsplit]
    have := Bson.ldrScan_fire apis w argdict c hv pv l1 l2 hwh hpid hch hcp hl1
    rw [hsplit] at this
    exact this
  · intro apis argdict hfind
    rw [Bson.ldrStep, hfind]
  · intro apis argdict w hv pv hfind hwh hpid hcond
    rw [Bson.ldrStep, hfind]
    exact Bson.ldrScan_no_match apis w argdict hv pv hwh hpid apis hcond

/-- C1 counterexample: the claim quantifies over any matching
`WriteProcessMemory`/`CreateRemoteThread` pair in history, but the source
fixes the first `WriteProcessMemory` entry. Here history holds a first
`WriteProcessMemory` with handle 2, a second with handle 1, and a
`CreateRemoteThread` with handle 1 and pid 9: a matching pair exists and
the event pid matches, yet nothing fires and nothing is removed. -/
theorem c1_counterexample :
    (("WriteProcessMemory", [("ProcessHandle", Value.vint 1)]) ∈
      [("WriteProcessMemory", [("ProcessHandle", Value.vint 2)]),
       ("WriteProcessMemory", [("ProcessHandle", Value.vint 1)]),
       ("CreateRemoteThread",
         [("ProcessHandle", Value.vint 1), ("ProcessId", Value.vint 9)])]) ∧
    (("CreateRemoteThread",
       [("ProcessHandle", Value.vint 1), ("ProcessId", Value.vint 9)]) ∈
      [("WriteProcessMemory", [("ProcessHandle", Value.vint 2)]),
       ("WriteProcessMemory", [("ProcessHandle", Value.vint 1)]),
       ("CreateRemoteThread",
         [("ProcessHandle", Value.vint 1), ("ProcessId", Value.vint 9)])]) ∧
    alookup "ProcessHandle" [("ProcessHandle", Value.vint 1)] =
      alookup "ProcessHandle"
        [("ProcessHandle", Value.vint 1), ("ProcessId", Value.vint 9)] ∧
    alookup "ProcessId" [("ProcessId", Value.vint 9)] =
      alookup "ProcessId"
        [("ProcessHandle", Value.vint 1), ("ProcessId", Value.vint 9)] ∧
    Bson.ldrStep
      [("WriteProcessMemory", [("ProcessHandle", Value.vint 2)]),
       ("WriteProcessMemory", [("ProcessHandle", Value.vint 1)]),
       ("CreateRemoteThread",
         [("ProcessHandle", Value.vint 1), ("ProcessId", Value.vint 9)])]
      [("ProcessId", Value.vint 9)] =
      some ([],
        [("WriteProcessMemory", [("ProcessHandle", Value.vint 2)]),
         ("WriteProcessMemory", [("ProcessHandle", Value.vint 1)]),
         ("CreateRemoteThread",
           [("ProcessHandle", Value.vint 1), ("ProcessId", Value.vint 9)])]) := by
  refine ⟨by simp, by simp, rfl, rfl, by rfl⟩

/-- Witness for C1 at the spec scenario
`[WriteProcessMemory(h=1), CreateRemoteThread(h=1, pid=9), LdrLoadDll(pid=9)]`:
the chain fires once and both constituent entries leave the history. -/
theorem c1_ldr_chain_witness :
    Bson.ldrStep
      [("WriteProcessMemory", [("ProcessHandle", Value.vint 1)]),
       ("CreateRemoteThread",
         [("ProcessHandle", Value.vint 1), ("ProcessId", Value.vint 9)]),
       ("LdrLoadDll", [("ProcessId", Value.vint 9)])]
      [("ProcessId", Value.vint 9)] =
      some ([("WriteProcessMemory -> CreateRemoteThread -> LoadLibrary",
              [("ProcessId", Value.vint 9)])],
        [("LdrLoadDll", [("ProcessId", Value.vint 9)])]) := by
  have h := c1_ldr_chain.1
    [("WriteProcessMemory", [("ProcessHandle", Value.vint 1)]),
     ("CreateRemoteThread",
       [("ProcessHandle", Value.vint 1), ("ProcessId", Value.vint 9)]),
     ("LdrLoadDll", [("ProcessId", Value.vint 9)])]
    [("ProcessId", Value.vint 9)]
    [("ProcessHandle", Value.vint 1)]
    [("ProcessHandle", Value.vint 1), ("ProcessId", Value.vint 9)]
    (Value.vint 1) (Value.vint 9)
    [("WriteProcessMemory", [("ProcessHandle", Value.vint 1)])]
    [("LdrLoadDll", [("ProcessId", Value.vint 9)])]
    rfl rfl rfl rfl rfl rfl
    (by
      intro a ha
      rcases List.mem_singleton.mp ha with h
      have h2 : "CreateRemoteThread" = "WriteProcessMemory" := congrArg Prod.fst h
      exact absurd h2 (by decide))
  exact h.trans (by rfl)
